import Mathlib

/-!
Shallow embedding of the s3sync program (main.go).

The program mirrors one storage location onto another. A location is either
a local directory (the dynamic type of its Service field is os.FileInfo) or
an S3 bucket (Service is an s3 client). Each location owns a Manifest: a map
from relative key to a file descriptor. The one-time reconciliation pass
pushes source objects to the destination and optionally deletes destination
objects missing from the source; the watch loop then translates filesystem
events into put and delete calls.

Go maps are modelled as association lists with Go map semantics for lookup,
insert and delete. Backend I/O is modelled as a trace of emitted operations;
backend calls are assumed to succeed, matching the code in which any backend
error is fatal and so never produces a post-state at all.
-/

/-- The dynamic type of location.Service: os.FileInfo for a directory root,
a client value for an S3 bucket. The code dispatches on this by type switch. -/
inductive Backend
  | fs
  | s3
deriving DecidableEq, Repr

/-- LocationType from main.go. -/
inductive LocationType
  | Source
  | Destination
deriving DecidableEq, Repr

/-- The fields of an os.Stat result that the program can read. -/
structure FileInfo where
  size : Int
  modTime : Int
deriving DecidableEq, Repr

/-- The opaque Object field of a file: a stat handle, an S3 object
reference, or the zero value. -/
inductive ObjHandle
  | fileInfo (fi : FileInfo)
  | s3Object (key : String) (size : Int) (lastModified : Int)
  | nil
deriving DecidableEq, Repr

/-- The file struct from main.go. Go zero values: empty strings, zero time,
size zero, nil handle. -/
structure file where
  Name : String
  Path : String
  LastModified : Int
  Size : Int
  Object : ObjHandle
deriving DecidableEq, Repr

/-- Go map lookup, m[k]. -/
def lookupM : List (String × file) → String → Option file
  | [], _ => none
  | (k, f) :: rest, key => if k = key then some f else lookupM rest key

/-- Go map assignment, m[k] = f: overwrite in place or append. -/
def insertM (key : String) (f : file) : List (String × file) → List (String × file)
  | [] => [(key, f)]
  | (k, g) :: rest => if k = key then (key, f) :: rest else (k, g) :: insertM key f rest

/-- Go map deletion, delete(m, k). -/
def eraseM (key : String) : List (String × file) → List (String × file)
  | [] => []
  | (k, g) :: rest => if k = key then eraseM key rest else (k, g) :: eraseM key rest

/-- Key presence test, the ok of v, ok := m[k]. -/
def memM (m : List (String × file)) (key : String) : Bool :=
  (lookupM m key).isSome

/-- The location struct from main.go. The Destination pointer of a source is
modelled by passing both locations explicitly; Typ stands for the Type field,
whose name is reserved in Lean. -/
structure location where
  Service : Backend
  Bucket : String
  Path : String
  Manifest : List (String × file)
  Typ : LocationType
deriving DecidableEq, Repr

/-- One operation issued against a backend; the proofs reason about the
trace of these. -/
inductive BackendOp
  | put (key : String) (f : file)
  | del (key : String)
deriving DecidableEq, Repr

/-- location.Put from main.go, lines 318 to 345. The s3 branch calls
PutObject and then assigns l.Manifest[key] = f. The FileInfo branch creates
the file and copies the content but never touches the Manifest. -/
def location.Put (l : location) (key : String) (f : file) : location × List BackendOp :=
  match l.Service with
  | .s3 => ({ l with Manifest := insertM key f l.Manifest }, [.put key f])
  | .fs => (l, [.put key f])

/-- location.Delete from main.go, lines 347 to 367. Both branches issue one
backend delete; the Manifest deletion afterwards is shared by both. -/
def location.Delete (l : location) (key : String) : location × List BackendOp :=
  ({ l with Manifest := eraseM key l.Manifest }, [.del key])

/-- The body of the first loop of oneTimeSync for one source entry: push the
object if it is missing from the destination manifest or its size differs. -/
def syncStep (acc : location × List BackendOp) (kv : String × file) :
    location × List BackendOp :=
  match lookupM acc.1.Manifest kv.1 with
  | none =>
    let r := acc.1.Put kv.1 kv.2
    (r.1, acc.2 ++ r.2)
  | some destF =>
    if kv.2.Size ≠ destF.Size then
      let r := acc.1.Put kv.1 kv.2
      (r.1, acc.2 ++ r.2)
    else acc

/-- The body of the deletion loop of oneTimeSync for one destination key:
delete it if it is absent from the source manifest. -/
def delStep (srcM : List (String × file)) (acc : location × List BackendOp)
    (key : String) : location × List BackendOp :=
  match lookupM srcM key with
  | none =>
    let r := acc.1.Delete key
    (r.1, acc.2 ++ r.2)
  | some _ => acc

/-- oneTimeSync from main.go, lines 369 to 392. The deletion loop ranges
over the destination manifest as it stands after the first loop; deleting
the key being visited is safe in Go range semantics, so the loop is
modelled as a fold over a snapshot of those keys. -/
def oneTimeSync (deleteFlag : Bool) (src dst : location) : location × List BackendOp :=
  let p := src.Manifest.foldl syncStep (dst, [])
  match deleteFlag with
  | true => (p.1.Manifest.map Prod.fst).foldl (delStep src.Manifest) p
  | false => p

/-- The decision oneTimeSync takes for one source entry, relative to a fixed
destination manifest: a put when the key is missing or the sizes differ,
nothing when the sizes match. -/
def syncDecision (destM : List (String × file)) (kv : String × file) : Option BackendOp :=
  match lookupM destM kv.1 with
  | none => some (.put kv.1 kv.2)
  | some destF => if kv.2.Size ≠ destF.Size then some (.put kv.1 kv.2) else none

/-- The location component of one syncStep. -/
def syncStepLoc (d : location) (kv : String × file) : location :=
  match syncDecision d.Manifest kv with
  | some _ => (d.Put kv.1 kv.2).1
  | none => d

/-- fsnotify operation tags. -/
inductive FsnotifyOp
  | Create
  | Write
  | Remove
  | Rename
  | Chmod
deriving DecidableEq, Repr

/-- fsnotify.Event: an absolute path and an operation tag. -/
structure Event where
  Name : String
  Op : FsnotifyOp
deriving DecidableEq, Repr

/-! Path and key strings, modelled as lists of characters. -/

/-- strings.TrimPrefix: remove the leading prefix if present, otherwise
return the string unchanged. -/
def trimPrefixL (s pre : List Char) : List Char :=
  if pre.isPrefixOf s then s.drop pre.length else s

/-- The key the watch loop derives from an event path, main.go line 144:
strings.TrimPrefix of the event name by the location Path. -/
def watchEventKey (absName root : List Char) : List Char :=
  trimPrefixL absName root

/-- The key the S3 manifest builder derives from a listed object key,
main.go line 268: a slash prepended to the TrimPrefix result. -/
def s3ListKey (absKey root : List Char) : List Char :=
  '/' :: trimPrefixL absKey root

/-- The joined absolute identifier the code forms from a root and a name:
root plus slash plus name, as in Put, Watch registration and
buildDirManifest. -/
def fsJoin (root rel : List Char) : List Char :=
  root ++ '/' :: rel

/-- Split a character list on slashes. The result is nonempty. -/
def splitSlash : List Char → List (List Char)
  | [] => [[]]
  | c :: rest =>
    match splitSlash rest with
    | [] => [[]]
    | s :: ss => if c = '/' then [] :: s :: ss else (c :: s) :: ss

/-- The element loop of path Clean: drop empty and dot segments, resolve
dotdot against the output stack, keep leading dotdots of relative paths. -/
def cleanLoop (rooted : Bool) : List (List Char) → List (List Char) → List (List Char)
  | out, [] => out.reverse
  | out, seg :: rest =>
    if seg = [] ∨ seg = ['.'] then cleanLoop rooted out rest
    else if seg = ['.', '.'] then
      match out with
      | top :: outRest =>
        if top = ['.', '.'] then cleanLoop rooted (seg :: out) rest
        else cleanLoop rooted outRest rest
      | [] =>
        if rooted then cleanLoop rooted [] rest else cleanLoop rooted [seg] rest
    else cleanLoop rooted (seg :: out) rest

/-- Join segments with slashes. -/
def joinSlash : List (List Char) → List Char
  | [] => []
  | [s] => s
  | s :: rest => s ++ '/' :: joinSlash rest

/-- filepath.Clean for slash-separated paths. -/
def cleanL (l : List Char) : List Char :=
  match l with
  | [] => ['.']
  | c :: _ =>
    let rooted := c = '/'
    let body := joinSlash (cleanLoop rooted [] (splitSlash l))
    if rooted then '/' :: body
    else if body = [] then ['.']
    else body

/-- The key the directory manifest builder derives, main.go line 299:
filepath.Clean of the TrimPrefix result. -/
def dirEntryKey (absPath root : List Char) : List Char :=
  cleanL (trimPrefixL absPath root)

/-- Everything before and including the final slash. -/
def upToLastSlash (l : List Char) : List Char :=
  ((l.reverse.dropWhile (fun c => c ≠ '/'))).reverse

/-- Everything after the final slash. -/
def afterLastSlash (l : List Char) : List Char :=
  ((l.reverse.takeWhile (fun c => c ≠ '/'))).reverse

/-- Trailing slashes removed. -/
def dropTrailingSlashes (l : List Char) : List Char :=
  ((l.reverse.dropWhile (fun c => c = '/'))).reverse

/-- filepath.Base for slash-separated paths. -/
def baseNameL (l : List Char) : List Char :=
  match l with
  | [] => ['.']
  | _ =>
    let t := dropTrailingSlashes l
    match t with
    | [] => ['/']
    | _ =>
      match afterLastSlash t with
      | [] => ['/']
      | b => b

/-- filepath.Dir for slash-separated paths: Clean of everything up to the
final slash. -/
def dirNameL (l : List Char) : List Char :=
  cleanL (upToLastSlash l)

/-- filepath.Base on String. -/
def baseName (s : String) : String :=
  ⟨baseNameL s.data⟩

/-- filepath.Dir on String. -/
def dirName (s : String) : String :=
  ⟨dirNameL s.data⟩

/-- The two inputs constructFile branches on: an fsnotify event together
with the os.Stat answer for its path, or a listed S3 object. -/
inductive ConstructInput
  | event (e : Event) (stat : FileInfo)
  | s3obj (key : String) (size : Int) (lastModified : Int)
deriving DecidableEq, Repr

/-- constructFile from main.go, lines 235 to 256. In the event branch only
Name, Path and the stat handle are filled in: Size and LastModified keep
their Go zero values. The S3 branch copies size and timestamp from the
listed object. -/
def constructFile : ConstructInput → file
  | .event e st =>
    { Name := baseName e.Name
      Path := dirName e.Name
      LastModified := 0
      Size := 0
      Object := .fileInfo st }
  | .s3obj k sz lm =>
    { Name := baseName k
      Path := dirName k
      LastModified := lm
      Size := sz
      Object := .s3Object k sz lm }

/-- The result of handling one event: updated source and destination
locations plus the operations issued, or a fatal log exit. -/
inductive Outcome
  | ok (src dst : location) (ops : List BackendOp)
  | fatal (msg : String)
deriving DecidableEq, Repr

/-- location.handleEvent from main.go, lines 215 to 232. The switch has no
default case, so tags other than Create, Write and Remove fall through with
no action. st is the os.Stat answer constructFile would observe. -/
def handleEvent (src dst : location) (key : String) (ev : Event) (st : FileInfo) : Outcome :=
  match src.Typ with
  | .Source =>
    match ev.Op with
    | .Create =>
      let f := constructFile (.event ev st)
      let r := dst.Put key f
      .ok { src with Manifest := insertM key f src.Manifest } r.1 r.2
    | .Write =>
      let f := constructFile (.event ev st)
      let r := dst.Put key f
      .ok src r.1 r.2
    | .Remove =>
      let r := dst.Delete key
      .ok { src with Manifest := eraseM key src.Manifest } r.1 r.2
    | _ => .ok src dst []
  | .Destination => .fatal "we do not do this"

/-- The command line flags of the sync command. noop is stored into a
process global at startup, main.go lines 77 to 80. -/
structure Flags where
  noop : Bool
  recursive : Bool
  deleteFlag : Bool
  oneTime : Bool
deriving DecidableEq, Repr

/-- One delivered watch notification for a file: the derived relative key,
the event, and the stat answer at handling time. -/
structure WatchInput where
  key : String
  ev : Event
  st : FileInfo
deriving DecidableEq, Repr

/-- The watch loop over a finite schedule of file events: each event is
handled in arrival order; a fatal outcome terminates the process. -/
def watchLoop (src dst : location) : List WatchInput → location × location × List BackendOp
  | [] => (src, dst, [])
  | w :: rest =>
    match handleEvent src dst w.key w.ev w.st with
    | .ok s d ops =>
      let r := watchLoop s d rest
      (r.1, r.2.1, ops ++ r.2.2)
    | .fatal _ => (src, dst, [])

/-- The backend operations the whole sync action issues, main.go sync at
lines 97 to 116: the one-time pass followed by the watch loop. The noop
flag is carried in fl but, as in the code, never read past startup. -/
def programOps (fl : Flags) (src dst : location) (evs : List WatchInput) : List BackendOp :=
  let r := oneTimeSync fl.deleteFlag src dst
  r.2 ++ (watchLoop src r.1 evs).2.2

/-! Concrete locations used by witnesses and counterexamples, following the
scenario of the specification: source keys a and b, destination keys b and
c, sizes 10, 5 and 1. -/

/-- Descriptor of size 10. -/
def fa10 : file :=
  { Name := "a", Path := "/tmp/bar", LastModified := 0, Size := 10, Object := .nil }

/-- Descriptor of size 5. -/
def fb5 : file :=
  { Name := "b", Path := "/tmp/bar", LastModified := 0, Size := 5, Object := .nil }

/-- Descriptor of size 1. -/
def fc1 : file :=
  { Name := "c", Path := "/tmp/bar", LastModified := 0, Size := 1, Object := .nil }

/-- A filesystem source with keys a and b. -/
def srcEx : location :=
  { Service := .fs, Bucket := "", Path := "/tmp/bar"
    Manifest := [("a", fa10), ("b", fb5)], Typ := .Source }

/-- A filesystem source with an empty manifest. -/
def srcEmpty : location :=
  { Service := .fs, Bucket := "", Path := "/tmp/bar", Manifest := [], Typ := .Source }

/-- An object store destination with keys b and c. -/
def dstS3Ex : location :=
  { Service := .s3, Bucket := "alienthtest", Path := ""
    Manifest := [("b", fb5), ("c", fc1)], Typ := .Destination }

/-- A filesystem destination with keys b and c. -/
def dstFsEx : location :=
  { Service := .fs, Bucket := "", Path := "/tmp/dst"
    Manifest := [("b", fb5), ("c", fc1)], Typ := .Destination }

/-- A filesystem destination with an empty manifest. -/
def dstFsEmpty : location :=
  { Service := .fs, Bucket := "", Path := "/tmp/dst", Manifest := [], Typ := .Destination }

/-- A stat answer reporting a nonzero on-disk size. -/
def st0 : FileInfo :=
  { size := 999, modTime := 7 }

/-! Lemmas about the Go map model. -/

theorem lookupM_insertM_self (key : String) (f : file) (m : List (String × file)) :
    lookupM (insertM key f m) key = some f := by
  induction m with
  | nil => simp [insertM, lookupM]
  | cons hd tl ih =>
    obtain ⟨k, g⟩ := hd
    by_cases h : k = key <;> simp [insertM, lookupM, h, ih]

theorem lookupM_insertM_ne (key k : String) (f : file) (m : List (String × file))
    (h : k ≠ key) : lookupM (insertM key f m) k = lookupM m k := by
  have hks : ¬ key = k := fun e => h e.symm
  induction m with
  | nil => simp [insertM, lookupM, hks]
  | cons hd tl ih =>
    obtain ⟨k', g⟩ := hd
    by_cases h' : k' = key
    · subst h'
      simp [insertM, lookupM, hks]
    · simp [insertM, lookupM, h', ih]

theorem lookupM_eraseM_self (key : String) (m : List (String × file)) :
    lookupM (eraseM key m) key = none := by
  induction m with
  | nil => simp [eraseM, lookupM]
  | cons hd tl ih =>
    obtain ⟨k, g⟩ := hd
    by_cases h : k = key <;> simp [eraseM, lookupM, h, ih]

theorem lookupM_eraseM_ne (key k : String) (m : List (String × file))
    (h : k ≠ key) : lookupM (eraseM key m) k = lookupM m k := by
  induction m with
  | nil => simp [eraseM, lookupM]
  | cons hd tl ih =>
    obtain ⟨k', g⟩ := hd
    by_cases h' : k' = key
    · have hk : ¬ k' = k := fun e => h (by rw [← e, h'])
      have hkey : ¬ key = k := fun e => h e.symm
      simp [eraseM, lookupM, h', hk, hkey, ih]
    · simp [eraseM, lookupM, h', ih]

theorem lookupM_eq_none_of_not_mem_keys (m : List (String × file)) (k : String)
    (h : k ∉ m.map Prod.fst) : lookupM m k = none := by
  induction m with
  | nil => rfl
  | cons hd tl ih =>
    obtain ⟨k', g⟩ := hd
    simp only [List.map_cons, List.mem_cons, not_or] at h
    have hk : ¬ k' = k := fun e => h.1 e.symm
    simp [lookupM, hk, ih h.2]

theorem mem_keys_of_lookupM_isSome (m : List (String × file)) (k : String)
    (h : (lookupM m k).isSome = true) : k ∈ m.map Prod.fst := by
  induction m with
  | nil => simp [lookupM] at h
  | cons hd tl ih =>
    obtain ⟨k', g⟩ := hd
    by_cases h' : k' = k
    · simp [h']
    · simp only [lookupM, if_neg h'] at h
      simp [ih h]

theorem lookupM_of_mem_nodup (m : List (String × file)) (k : String) (f : file)
    (hnd : (m.map Prod.fst).Nodup) (h : (k, f) ∈ m) : lookupM m k = some f := by
  induction m with
  | nil => simp at h
  | cons hd tl ih =>
    obtain ⟨k', g⟩ := hd
    simp only [List.map_cons, List.nodup_cons] at hnd
    rw [List.mem_cons] at h
    rcases h with h1 | h1
    · obtain ⟨e1, e2⟩ := Prod.mk.inj h1
      subst e1
      subst e2
      simp [lookupM]
    · have hk : ¬ k' = k := by
        intro e
        refine hnd.1 ?_
        rw [e]
        exact List.mem_map.mpr ⟨(k, f), h1, rfl⟩
      simp [lookupM, hk, ih hnd.2 h1]

/-! Lemmas about the first loop of oneTimeSync. -/

theorem syncStep_pair (d : location) (ops : List BackendOp) (kv : String × file) :
    syncStep (d, ops) kv = (syncStepLoc d kv, ops ++ (syncDecision d.Manifest kv).toList) := by
  unfold syncStep syncStepLoc syncDecision
  cases h : lookupM d.Manifest kv.1 with
  | none => cases hsv : d.Service <;> simp [h, location.Put, hsv]
  | some g =>
    by_cases hs : kv.2.Size ≠ g.Size
    · cases hsv : d.Service <;> simp [h, hs, location.Put, hsv]
    · simp [h, hs]

theorem syncStepLoc_Service (d : location) (kv : String × file) :
    (syncStepLoc d kv).Service = d.Service := by
  cases h : syncDecision d.Manifest kv
  · simp [syncStepLoc, h]
  · cases hs : d.Service <;> simp [syncStepLoc, h, location.Put, hs]

theorem syncStepLoc_lookup_ne (d : location) (kv : String × file) (k : String)
    (h : k ≠ kv.1) :
    lookupM (syncStepLoc d kv).Manifest k = lookupM d.Manifest k := by
  cases hd : syncDecision d.Manifest kv
  · simp [syncStepLoc, hd]
  · cases hs : d.Service
    · simp [syncStepLoc, hd, location.Put, hs]
    · simp [syncStepLoc, hd, location.Put, hs, lookupM_insertM_ne kv.1 k kv.2 d.Manifest h]

theorem syncStepLoc_lookup_self_s3 (d : location) (kv : String × file)
    (hs : d.Service = .s3) :
    lookupM (syncStepLoc d kv).Manifest kv.1 =
      match syncDecision d.Manifest kv with
      | some _ => some kv.2
      | none => lookupM d.Manifest kv.1 := by
  cases hd : syncDecision d.Manifest kv
  · simp [syncStepLoc, hd]
  · simp [syncStepLoc, hd, location.Put, hs, lookupM_insertM_self]

theorem syncDecision_congr (m1 m2 : List (String × file)) (kv : String × file)
    (h : lookupM m1 kv.1 = lookupM m2 kv.1) :
    syncDecision m1 kv = syncDecision m2 kv := by
  unfold syncDecision
  rw [h]

theorem pass1_Service (srcL : List (String × file)) :
    ∀ (d : location) (ops : List BackendOp),
      ((srcL.foldl syncStep (d, ops)).1).Service = d.Service := by
  induction srcL with
  | nil => intro d ops; rfl
  | cons kv rest ih =>
    intro d ops
    rw [List.foldl_cons, syncStep_pair, ih]
    exact syncStepLoc_Service d kv

theorem pass1_lookup_not_mem (srcL : List (String × file)) :
    ∀ (d : location) (ops : List BackendOp) (k : String),
      lookupM srcL k = none →
      lookupM ((srcL.foldl syncStep (d, ops)).1).Manifest k = lookupM d.Manifest k := by
  induction srcL with
  | nil => intro d ops k _; rfl
  | cons kv rest ih =>
    intro d ops k h
    obtain ⟨k0, f0⟩ := kv
    have hne : ¬ k0 = k := by
      intro e
      simp [lookupM, e] at h
    have hrest : lookupM rest k = none := by
      simpa [lookupM, hne] using h
    rw [List.foldl_cons, syncStep_pair, ih _ _ _ hrest]
    exact syncStepLoc_lookup_ne d (k0, f0) k (fun e => hne e.symm)

theorem pass1_lookup_s3 (srcL : List (String × file)) :
    ∀ (d : location) (ops : List BackendOp), d.Service = .s3 →
      (srcL.map Prod.fst).Nodup → ∀ k,
      lookupM ((srcL.foldl syncStep (d, ops)).1).Manifest k =
        match lookupM srcL k with
        | none => lookupM d.Manifest k
        | some f =>
          match lookupM d.Manifest k with
          | none => some f
          | some g => if f.Size ≠ g.Size then some f else some g := by
  induction srcL with
  | nil => intro d ops _ _ k; rfl
  | cons kv rest ih =>
    intro d ops hs hnd k
    obtain ⟨k0, f0⟩ := kv
    simp only [List.map_cons, List.nodup_cons] at hnd
    rw [List.foldl_cons, syncStep_pair]
    by_cases e : k0 = k
    · have hrest : lookupM rest k = none := by
        rw [← e]
        exact lookupM_eq_none_of_not_mem_keys rest k0 hnd.1
      rw [pass1_lookup_not_mem rest _ _ _ hrest, ← e,
        syncStepLoc_lookup_self_s3 d (k0, f0) hs]
      simp only [lookupM, if_pos rfl]
      cases hdl : lookupM d.Manifest k0 with
      | none => simp [syncDecision, hdl]
      | some g =>
        by_cases hsz : f0.Size ≠ g.Size
        · simp [syncDecision, hdl, hsz]
        · simp [syncDecision, hdl, hsz]
    · have hsvc : (syncStepLoc d (k0, f0)).Service = Backend.s3 := by
        rw [syncStepLoc_Service]
        exact hs
      have hne : k ≠ k0 := fun h => e h.symm
      have hstep := syncStepLoc_lookup_ne d (k0, f0) k hne
      rw [ih (syncStepLoc d (k0, f0)) _ hsvc hnd.2 k]
      simp only [hstep, lookupM, if_neg e]

theorem pass1_ops (srcL : List (String × file)) :
    ∀ (d : location) (ops0 : List BackendOp), (srcL.map Prod.fst).Nodup →
      (srcL.foldl syncStep (d, ops0)).2 = ops0 ++ srcL.filterMap (syncDecision d.Manifest) := by
  induction srcL with
  | nil => intro d ops0 _; simp
  | cons kv rest ih =>
    intro d ops0 hnd
    simp only [List.map_cons, List.nodup_cons] at hnd
    rw [List.foldl_cons, syncStep_pair, ih _ _ hnd.2]
    have hcong : rest.filterMap (syncDecision (syncStepLoc d kv).Manifest) =
        rest.filterMap (syncDecision d.Manifest) := by
      refine List.filterMap_congr ?_
      intro kv' hkv'
      refine syncDecision_congr _ _ _ ?_
      refine syncStepLoc_lookup_ne _ _ _ ?_
      intro e
      exact hnd.1 (e ▸ List.mem_map.mpr ⟨kv', hkv', rfl⟩)
    rw [hcong, List.filterMap_cons]
    cases hdec : syncDecision d.Manifest kv <;> simp [hdec]

theorem pass1_noop_run (srcL : List (String × file)) :
    ∀ (d : location) (ops0 : List BackendOp),
      (∀ kv ∈ srcL, syncDecision d.Manifest kv = none) →
      srcL.foldl syncStep (d, ops0) = (d, ops0) := by
  induction srcL with
  | nil => intro d ops0 _; rfl
  | cons kv rest ih =>
    intro d ops0 h
    have h0 : syncDecision d.Manifest kv = none := h kv (List.mem_cons_self kv rest)
    have hloc : syncStepLoc d kv = d := by
      simp [syncStepLoc, h0]
    rw [List.foldl_cons, syncStep_pair, hloc, h0]
    simp only [Option.toList, List.append_nil]
    exact ih d ops0 (fun kv' h' => h kv' (List.mem_cons_of_mem kv h'))

/-! Lemmas about the deletion loop of oneTimeSync. -/

theorem delStep_pair (srcM : List (String × file)) (d : location)
    (ops : List BackendOp) (k : String) :
    delStep srcM (d, ops) k =
      (match lookupM srcM k with
       | none => { d with Manifest := eraseM k d.Manifest }
       | some _ => d,
       ops ++ match lookupM srcM k with
       | none => [BackendOp.del k]
       | some _ => []) := by
  unfold delStep location.Delete
  cases h : lookupM srcM k <;> simp [h]

theorem pass2_Service (ks : List String) :
    ∀ (d : location) (ops : List BackendOp) (srcM : List (String × file)),
      ((ks.foldl (delStep srcM) (d, ops)).1).Service = d.Service := by
  induction ks with
  | nil => intro d ops srcM; rfl
  | cons k0 rest ih =>
    intro d ops srcM
    rw [List.foldl_cons, delStep_pair]
    cases h : lookupM srcM k0 <;> simp [h, ih]

theorem pass2_lookup (ks : List String) :
    ∀ (d : location) (ops : List BackendOp) (srcM : List (String × file)) (k : String),
      lookupM ((ks.foldl (delStep srcM) (d, ops)).1).Manifest k =
        if k ∈ ks ∧ lookupM srcM k = none then none else lookupM d.Manifest k := by
  induction ks with
  | nil => intro d ops srcM k; simp
  | cons k0 rest ih =>
    intro d ops srcM k
    rw [List.foldl_cons, delStep_pair]
    cases h0 : lookupM srcM k0 with
    | none =>
      simp only [h0]
      rw [ih]
      by_cases e : k = k0
      · subst e
        simp [h0, lookupM_eraseM_self]
      · by_cases hm : k ∈ rest <;>
          simp [e, hm, lookupM_eraseM_ne k0 k d.Manifest e]
    | some v =>
      simp only [h0]
      rw [ih]
      by_cases e : k = k0
      · subst e
        simp [h0]
      · simp [e]

theorem pass2_ops (ks : List String) :
    ∀ (d : location) (ops : List BackendOp) (srcM : List (String × file)),
      (ks.foldl (delStep srcM) (d, ops)).2 =
        ops ++ ks.filterMap
          (fun k => match lookupM srcM k with
                    | none => some (BackendOp.del k)
                    | some _ => none) := by
  induction ks with
  | nil => intro d ops srcM; simp
  | cons k0 rest ih =>
    intro d ops srcM
    rw [List.foldl_cons, delStep_pair, List.filterMap_cons]
    cases h0 : lookupM srcM k0 <;> simp [h0, ih]

theorem pass2_noop_run (ks : List String) :
    ∀ (d : location) (ops : List BackendOp) (srcM : List (String × file)),
      (∀ k ∈ ks, lookupM srcM k ≠ none) →
      ks.foldl (delStep srcM) (d, ops) = (d, ops) := by
  induction ks with
  | nil => intro d ops srcM _; rfl
  | cons k0 rest ih =>
    intro d ops srcM h
    have h0 := h k0 (List.mem_cons_self k0 rest)
    rw [List.foldl_cons, delStep_pair]
    cases hl : lookupM srcM k0 with
    | none => exact absurd hl h0
    | some v =>
      simp only [hl, List.append_nil]
      exact ih d ops srcM (fun k hk => h k (List.mem_cons_of_mem k0 hk))

theorem lookupM_isSome_of_mem_keys (m : List (String × file)) (k : String)
    (h : k ∈ m.map Prod.fst) : (lookupM m k).isSome = true := by
  induction m with
  | nil => simp at h
  | cons hd tl ih =>
    obtain ⟨k', g⟩ := hd
    by_cases e : k' = k
    · simp [lookupM, e]
    · simp only [List.map_cons, List.mem_cons] at h
      rcases h with h | h
      · exact absurd h.symm e
      · simp [lookupM, e, ih h]

theorem pass1_src_key_size (src dst : location)
    (hnd : (src.Manifest.map Prod.fst).Nodup) (hs : dst.Service = Backend.s3)
    (k : String) (f : file) (hf : lookupM src.Manifest k = some f) :
    ∃ g, lookupM ((src.Manifest.foldl syncStep (dst, [])).1).Manifest k = some g ∧
      g.Size = f.Size := by
  rw [pass1_lookup_s3 src.Manifest dst [] hs hnd k, hf]
  cases hdst : lookupM dst.Manifest k with
  | none => exact ⟨f, rfl, rfl⟩
  | some g =>
    by_cases hsz : f.Size ≠ g.Size
    · exact ⟨f, by simp [hsz], rfl⟩
    · exact ⟨g, by simp [hsz], (not_not.mp hsz).symm⟩

theorem oneTimeSync_src_key_size (fl : Bool) (src dst : location)
    (hnd : (src.Manifest.map Prod.fst).Nodup) (hs : dst.Service = Backend.s3)
    (k : String) (f : file) (hf : lookupM src.Manifest k = some f) :
    ∃ g, lookupM ((oneTimeSync fl src dst).1).Manifest k = some g ∧
      g.Size = f.Size := by
  cases fl with
  | false => exact pass1_src_key_size src dst hnd hs k f hf
  | true =>
    have he : oneTimeSync true src dst =
        ((src.Manifest.foldl syncStep (dst, [])).1.Manifest.map Prod.fst).foldl
          (delStep src.Manifest)
          ((src.Manifest.foldl syncStep (dst, [])).1,
           (src.Manifest.foldl syncStep (dst, [])).2) := rfl
    rw [he, pass2_lookup]
    simp only [hf]
    obtain ⟨g, hg, hsz⟩ := pass1_src_key_size src dst hnd hs k f hf
    refine ⟨g, ?_, hsz⟩
    have hcond : ¬ ((k ∈ (src.Manifest.foldl syncStep (dst, [])).1.Manifest.map Prod.fst) ∧
        some f = none) := fun hc => Option.noConfusion hc.2
    rw [if_neg hcond]
    exact hg

theorem oneTimeSync_delete_mem (src dst : location)
    (hnd : (src.Manifest.map Prod.fst).Nodup) (hs : dst.Service = Backend.s3)
    (k : String) :
    memM ((oneTimeSync true src dst).1).Manifest k = memM src.Manifest k := by
  have he : oneTimeSync true src dst =
      ((src.Manifest.foldl syncStep (dst, [])).1.Manifest.map Prod.fst).foldl
        (delStep src.Manifest)
        ((src.Manifest.foldl syncStep (dst, [])).1,
         (src.Manifest.foldl syncStep (dst, [])).2) := rfl
  have hl1 := pass1_lookup_s3 src.Manifest dst [] hs hnd k
  unfold memM
  rw [he, pass2_lookup]
  cases hsrc : lookupM src.Manifest k with
  | some f =>
    obtain ⟨g, hg, _⟩ := pass1_src_key_size src dst hnd hs k f hsrc
    simp [hsrc, hg]
  | none =>
    by_cases hmem : k ∈ (src.Manifest.foldl syncStep (dst, [])).1.Manifest.map Prod.fst
    · simp [hsrc, hmem]
    · rw [if_neg (fun hc => hmem hc.1)]
      rw [hl1, hsrc]
      cases hdst : lookupM dst.Manifest k with
      | none => rfl
      | some g =>
        exfalso
        refine hmem (mem_keys_of_lookupM_isSome _ _ ?_)
        rw [hl1, hsrc, hdst]
        rfl

theorem isPrefixOf_append_self (l x : List Char) : l.isPrefixOf (l ++ x) = true := by
  induction l with
  | nil => cases x <;> simp [List.isPrefixOf]
  | cons a as ih => simp [List.isPrefixOf, ih]

/-- True on the fatal outcome, false on a normal one. -/
def Outcome.isFatal : Outcome → Bool
  | .fatal _ => true
  | .ok _ _ _ => false

/-- The source manifest an outcome leaves behind; the empty manifest for the
fatal outcome, which has none. -/
def outcomeSrcManifest : Outcome → List (String × file)
  | .ok s _ _ => s.Manifest
  | .fatal _ => []

/-! Claim theorems. -/

/-- C2, counterexample: on a filesystem backed Location with an empty
Manifest, a put of key a leaves the Manifest without that key, because the
FileInfo branch of location.Put never updates the Manifest. This refutes
the claim that after put the key is present in the Manifest for both
backend kinds. -/
theorem put_fs_manifest_cex :
    lookupM (dstFsEmpty.Put "a" fa10).1.Manifest "a" = none := by decide

/-- C2, amended: put always issues exactly one backend put of the given
content and leaves the backend kind unchanged, but it inserts or overwrites
the Manifest entry for the key only when the backend is the object store;
for a filesystem backend the Manifest is left untouched. Entries at other
keys are never affected. -/
theorem put_manifest_update (l : location) (key : String) (f : file) :
    (l.Put key f).2 = [BackendOp.put key f] ∧
    (l.Put key f).1.Service = l.Service ∧
    lookupM (l.Put key f).1.Manifest key =
      (if l.Service = Backend.s3 then some f else lookupM l.Manifest key) ∧
    ∀ k, k ≠ key → lookupM (l.Put key f).1.Manifest k = lookupM l.Manifest k := by
  cases hs : l.Service with
  | fs => simp [location.Put, hs]
  | s3 =>
    refine ⟨by simp [location.Put, hs], by simp [location.Put, hs], ?_, ?_⟩
    · simp [location.Put, hs, lookupM_insertM_self]
    · intro k hk
      simp [location.Put, hs, lookupM_insertM_ne key k f l.Manifest hk]

/-- C4, counterexample: a Rename event on the source is not fatal; the
switch in handleEvent has no default case, so the event is silently
dropped, with no operations and no state change. This refutes the claim
that unhandled tags terminate the process. -/
theorem handleEvent_rename_not_fatal_cex :
    (handleEvent srcEx dstFsEx "x" { Name := "/tmp/bar/x", Op := .Rename } st0).isFatal
      = false ∧
    handleEvent srcEx dstFsEx "x" { Name := "/tmp/bar/x", Op := .Rename } st0 =
      .ok srcEx dstFsEx [] := by decide

/-- C4, amended: a source side event whose tag is not Create, Write or
Remove, such as Rename or Chmod, is silently ignored: handleEvent returns
the unchanged locations, issues no operations, and does not terminate. -/
theorem handleEvent_other_tags_ignored (src dst : location) (key : String)
    (ev : Event) (st : FileInfo) (h1 : src.Typ = .Source)
    (h2 : ev.Op = .Rename ∨ ev.Op = .Chmod) :
    handleEvent src dst key ev st = .ok src dst [] := by
  rcases h2 with h2 | h2 <;> simp [handleEvent, h1, h2]

/-- Witness for C4 at a concrete Chmod event. -/
theorem handleEvent_other_tags_ignored_witness :
    handleEvent srcEx dstS3Ex "x" { Name := "/tmp/bar/x", Op := .Chmod } st0 =
      .ok srcEx dstS3Ex [] :=
  handleEvent_other_tags_ignored srcEx dstS3Ex "x"
    { Name := "/tmp/bar/x", Op := .Chmod } st0 rfl (Or.inr rfl)

/-- C5, counterexample: with the key x absent from the source Manifest, the
source Manifest after a written event differs from the source Manifest
after a created event for the same path: created inserts the fresh
descriptor, written inserts nothing. This refutes the claim that both
events end with the same source Manifest entry for the key. -/
theorem handleEvent_write_manifest_cex :
    outcomeSrcManifest
        (handleEvent srcEmpty dstS3Ex "x" { Name := "/tmp/bar/x", Op := .Write } st0) ≠
      outcomeSrcManifest
        (handleEvent srcEmpty dstS3Ex "x" { Name := "/tmp/bar/x", Op := .Create } st0) := by
  decide

/-- C5, amended: created and written events for the same path and stat
answer issue the identical destination put, with the identical descriptor,
since constructFile ignores the operation tag; but only created inserts the
descriptor into the source Manifest, while written leaves the source
location exactly as it was. The two outcomes coincide only when the key
already maps to that very descriptor. -/
theorem handleEvent_write_vs_create (src dst : location) (key n : String)
    (st : FileInfo) (h : src.Typ = .Source) :
    handleEvent src dst key { Name := n, Op := .Write } st =
      .ok src (dst.Put key (constructFile (.event { Name := n, Op := .Write } st))).1
        (dst.Put key (constructFile (.event { Name := n, Op := .Write } st))).2 ∧
    handleEvent src dst key { Name := n, Op := .Create } st =
      .ok { src with Manifest :=
              insertM key (constructFile (.event { Name := n, Op := .Create } st)) src.Manifest }
        (dst.Put key (constructFile (.event { Name := n, Op := .Create } st))).1
        (dst.Put key (constructFile (.event { Name := n, Op := .Create } st))).2 ∧
    constructFile (.event { Name := n, Op := .Create } st) =
      constructFile (.event { Name := n, Op := .Write } st) := by
  refine ⟨?_, ?_, rfl⟩ <;> simp [handleEvent, h]

/-- Witness for C5 at a concrete path. -/
theorem handleEvent_write_vs_create_witness :
    handleEvent srcEx dstS3Ex "x" { Name := "/tmp/bar/x", Op := .Write } st0 =
      .ok srcEx
        (dstS3Ex.Put "x" (constructFile (.event { Name := "/tmp/bar/x", Op := .Write } st0))).1
        (dstS3Ex.Put "x" (constructFile (.event { Name := "/tmp/bar/x", Op := .Write } st0))).2 :=
  (handleEvent_write_vs_create srcEx dstS3Ex "x" "/tmp/bar/x" st0 rfl).1

/-- C7: handling a removed event for a key present in the source Manifest
issues exactly one destination delete for that key, removes the key from
the destination Manifest, and removes the key from the source Manifest, so
the key is absent from the source Manifest afterward. -/
theorem handleEvent_removed_spec (src dst : location) (key : String) (ev : Event)
    (st : FileInfo) (h1 : src.Typ = .Source) (h2 : ev.Op = .Remove)
    (h3 : memM src.Manifest key = true) :
    handleEvent src dst key ev st =
      .ok { src with Manifest := eraseM key src.Manifest }
        { dst with Manifest := eraseM key dst.Manifest } [BackendOp.del key] ∧
    lookupM (eraseM key src.Manifest) key = none := by
  refine ⟨?_, lookupM_eraseM_self key src.Manifest⟩
  simp [handleEvent, h1, h2, location.Delete]

/-- Witness for C7 at the key a of the concrete source. -/
theorem handleEvent_removed_spec_witness :
    handleEvent srcEx dstS3Ex "a" { Name := "/tmp/bar/a", Op := .Remove } st0 =
      .ok { srcEx with Manifest := eraseM "a" srcEx.Manifest }
        { dstS3Ex with Manifest := eraseM "a" dstS3Ex.Manifest } [BackendOp.del "a"] :=
  (handleEvent_removed_spec srcEx dstS3Ex "a" { Name := "/tmp/bar/a", Op := .Remove }
    st0 rfl rfl (by decide)).1

/-- C8, counterexample: joining the root /tmp/bar with the relative key foo
and deriving the key back the way the watch loop does yields /foo, not foo.
This refutes the round trip claim. -/
theorem key_roundtrip_cex :
    watchEventKey (fsJoin "/tmp/bar".data "foo".data) "/tmp/bar".data ≠ "foo".data := by
  decide

/-- C8, amended: deriving the relative key back from the joined absolute
path yields the original key with a leading separator prepended, for every
root and relative name: the watch loop strips exactly the root and keeps
the joining slash. The manifest builders behave the same way, keying every
entry under a leading slash. -/
theorem watchEventKey_of_join (root rel : List Char) :
    watchEventKey (fsJoin root rel) root = '/' :: rel := by
  unfold watchEventKey fsJoin trimPrefixL
  rw [if_pos (isPrefixOf_append_self root ('/' :: rel))]
  exact List.drop_left root ('/' :: rel)

/-- C9: the descriptor constructFile builds from an event records size 0 no
matter what size the stat answer reports, for created and written tags
alike, and a created event inserts exactly that size 0 descriptor into the
source Manifest. -/
theorem constructFile_event_size_zero (src dst : location) (key n : String)
    (st : FileInfo) (h : src.Typ = .Source) :
    (constructFile (.event { Name := n, Op := .Create } st)).Size = 0 ∧
    (constructFile (.event { Name := n, Op := .Write } st)).Size = 0 ∧
    handleEvent src dst key { Name := n, Op := .Create } st =
      .ok { src with Manifest :=
              insertM key (constructFile (.event { Name := n, Op := .Create } st)) src.Manifest }
        (dst.Put key (constructFile (.event { Name := n, Op := .Create } st))).1
        (dst.Put key (constructFile (.event { Name := n, Op := .Create } st))).2 ∧
    lookupM (insertM key (constructFile (.event { Name := n, Op := .Create } st)) src.Manifest)
        key = some (constructFile (.event { Name := n, Op := .Create } st)) := by
  refine ⟨rfl, rfl, ?_, lookupM_insertM_self _ _ _⟩
  simp [handleEvent, h]

/-- Witness for C9 with a stat answer reporting on-disk size 999. -/
theorem constructFile_event_size_zero_witness :
    (constructFile (.event { Name := "/tmp/bar/x", Op := .Create } st0)).Size = 0 ∧
    st0.size = 999 :=
  ⟨(constructFile_event_size_zero srcEx dstS3Ex "x" "/tmp/bar/x" st0 rfl).1, rfl⟩

/-- C10: the backend operations the program issues do not depend on the
noop flag: flipping it in the flag set leaves the trace of oneTimeSync and
the watch loop unchanged, because no code path past startup reads it. -/
theorem noop_flag_independent (fl : Flags) (b : Bool) (src dst : location)
    (evs : List WatchInput) :
    programOps { fl with noop := b } src dst evs = programOps fl src dst evs := rfl

/-- C1, counterexample: with a filesystem backed destination, the one-time
pass with the deletion flag off pushes the missing key a, yet a is absent
from the destination Manifest afterwards, so the final key set is not the
union of the two key sets. -/
theorem oneTimeSync_noDelete_fs_manifest_cex :
    (oneTimeSync false srcEx dstFsEx).2 = [BackendOp.put "a" fa10] ∧
    memM srcEx.Manifest "a" = true ∧
    memM (oneTimeSync false srcEx dstFsEx).1.Manifest "a" = false := by decide

/-- C1, amended: with the deletion flag off, the operations issued are
exactly one put per source key that is missing from the destination
Manifest or present with a different size, with the source descriptor, and
no operation for a key present with equal size; and when the destination is
object-store backed, the destination Manifest afterwards has exactly the
union of the two key sets and maps every source key to a descriptor with
the source descriptor size. For a filesystem backed destination the
operations are the same but the Manifest is not updated. -/
theorem oneTimeSync_noDelete_plan (src dst : location)
    (hnd : (src.Manifest.map Prod.fst).Nodup) :
    (oneTimeSync false src dst).2 = src.Manifest.filterMap (syncDecision dst.Manifest) ∧
    (dst.Service = Backend.s3 →
      (∀ k, memM (oneTimeSync false src dst).1.Manifest k =
        (memM src.Manifest k || memM dst.Manifest k)) ∧
      (∀ k f, lookupM src.Manifest k = some f →
        ∃ g, lookupM (oneTimeSync false src dst).1.Manifest k = some g ∧
          g.Size = f.Size)) := by
  have he : oneTimeSync false src dst = src.Manifest.foldl syncStep (dst, []) := rfl
  constructor
  · rw [he, pass1_ops src.Manifest dst [] hnd]
    simp
  · intro hs
    constructor
    · intro k
      unfold memM
      rw [he, pass1_lookup_s3 src.Manifest dst [] hs hnd k]
      cases hsrc : lookupM src.Manifest k with
      | none => simp [hsrc]
      | some f =>
        cases hdst : lookupM dst.Manifest k with
        | none => simp
        | some g => by_cases hsz : f.Size ≠ g.Size <;> simp [hsz]
    · intro k f hf
      rw [he]
      exact pass1_src_key_size src dst hnd hs k f hf

/-- Witness for C1 on the concrete scenario of the specification: source
keys a and b, object store destination keys b and c; exactly one put, of a,
is issued. -/
theorem oneTimeSync_noDelete_plan_witness :
    (oneTimeSync false srcEx dstS3Ex).2 =
      srcEx.Manifest.filterMap (syncDecision dstS3Ex.Manifest) ∧
    memM (oneTimeSync false srcEx dstS3Ex).1.Manifest "a" =
      (memM srcEx.Manifest "a" || memM dstS3Ex.Manifest "a") :=
  ⟨(oneTimeSync_noDelete_plan srcEx dstS3Ex (by decide)).1,
   ((oneTimeSync_noDelete_plan srcEx dstS3Ex (by decide)).2 rfl).1 "a"⟩

/-- C6, counterexample: with a filesystem backed destination and the
deletion flag on, the source key a is pushed but ends up absent from the
destination Manifest, so the final destination key set is not the source
key set. -/
theorem oneTimeSync_delete_fs_manifest_cex :
    memM srcEx.Manifest "a" = true ∧
    memM (oneTimeSync true srcEx dstFsEx).1.Manifest "a" = false := by decide

/-- C6, amended: with the deletion flag on and an object-store backed
destination, the destination Manifest afterwards has exactly the source key
set; a delete is issued for exactly the keys present in the destination
Manifest and absent from the source Manifest. For a filesystem backed
destination the deletes are the same but puts do not update the Manifest,
so the final key set can lack source keys. -/
theorem oneTimeSync_delete_plan (src dst : location)
    (hnd : (src.Manifest.map Prod.fst).Nodup) (hs : dst.Service = Backend.s3) :
    (∀ k, memM (oneTimeSync true src dst).1.Manifest k = memM src.Manifest k) ∧
    (∀ k, memM dst.Manifest k = true → lookupM src.Manifest k = none →
      BackendOp.del k ∈ (oneTimeSync true src dst).2) ∧
    (∀ k, BackendOp.del k ∈ (oneTimeSync true src dst).2 →
      lookupM src.Manifest k = none) := by
  have he : oneTimeSync true src dst =
      ((src.Manifest.foldl syncStep (dst, [])).1.Manifest.map Prod.fst).foldl
        (delStep src.Manifest)
        ((src.Manifest.foldl syncStep (dst, [])).1,
         (src.Manifest.foldl syncStep (dst, [])).2) := rfl
  refine ⟨fun k => oneTimeSync_delete_mem src dst hnd hs k, ?_, ?_⟩
  · intro k hdm hsrc
    rw [he, pass2_ops]
    refine List.mem_append_right _ ?_
    refine List.mem_filterMap.mpr ⟨k, ?_, by simp [hsrc]⟩
    apply mem_keys_of_lookupM_isSome
    rw [pass1_lookup_s3 src.Manifest dst [] hs hnd k, hsrc]
    exact hdm
  · intro k hmem
    rw [he, pass2_ops] at hmem
    rcases List.mem_append.mp hmem with hm | hm
    · exfalso
      rw [pass1_ops src.Manifest dst [] hnd] at hm
      simp only [List.nil_append] at hm
      obtain ⟨kv, _, hdec⟩ := List.mem_filterMap.mp hm
      unfold syncDecision at hdec
      cases hl : lookupM dst.Manifest kv.1 <;> rw [hl] at hdec
      · simp at hdec
      · split at hdec <;> simp at hdec
    · obtain ⟨k', _, hdec⟩ := List.mem_filterMap.mp hm
      cases hl : lookupM src.Manifest k' <;> rw [hl] at hdec
      · have : k' = k := by
          simpa using hdec
        rw [← this]
        exact hl
      · simp at hdec

/-- Witness for C6 on the concrete scenario: after the run the destination
key c, absent from the source, is gone, and a delete of c was issued. -/
theorem oneTimeSync_delete_plan_witness :
    memM (oneTimeSync true srcEx dstS3Ex).1.Manifest "c" = memM srcEx.Manifest "c" ∧
    BackendOp.del "c" ∈ (oneTimeSync true srcEx dstS3Ex).2 :=
  ⟨(oneTimeSync_delete_plan srcEx dstS3Ex (by decide) rfl).1 "c",
   (oneTimeSync_delete_plan srcEx dstS3Ex (by decide) rfl).2.1 "c" (by decide) (by decide)⟩

/-- C3, counterexample: with a filesystem backed destination, re-running
the one-time pass immediately after a completed run issues the put of key a
again, because the first run never recorded the pushed key in the
destination Manifest. This refutes the claim that the second run is
silent. -/
theorem oneTimeSync_rerun_fs_cex :
    (oneTimeSync false srcEx (oneTimeSync false srcEx dstFsEx).1).2 =
      [BackendOp.put "a" fa10] ∧
    (oneTimeSync false srcEx (oneTimeSync false srcEx dstFsEx).1).2 ≠ [] := by decide

/-- C3, amended: when the destination is object-store backed, running the
one-time pass a second time immediately after a completed first run, under
the same deletion flag, issues no put and no delete: the trace of the
second run is empty. For a filesystem backed destination every pushed key
is pushed again. -/
theorem oneTimeSync_rerun_s3_silent (fl : Bool) (src dst : location)
    (hnd : (src.Manifest.map Prod.fst).Nodup) (hs : dst.Service = Backend.s3) :
    (oneTimeSync fl src (oneTimeSync fl src dst).1).2 = [] := by
  have hdec : ∀ kv ∈ src.Manifest,
      syncDecision ((oneTimeSync fl src dst).1).Manifest kv = none := by
    intro kv hkv
    have hf : lookupM src.Manifest kv.1 = some kv.2 :=
      lookupM_of_mem_nodup src.Manifest kv.1 kv.2 hnd hkv
    obtain ⟨g, hg, hsz⟩ := oneTimeSync_src_key_size fl src dst hnd hs kv.1 kv.2 hf
    unfold syncDecision
    rw [hg]
    simp [hsz]
  have hfirst : src.Manifest.foldl syncStep ((oneTimeSync fl src dst).1, []) =
      ((oneTimeSync fl src dst).1, []) :=
    pass1_noop_run src.Manifest ((oneTimeSync fl src dst).1) [] hdec
  cases fl with
  | false =>
    have he2 : oneTimeSync false src (oneTimeSync false src dst).1 =
        src.Manifest.foldl syncStep ((oneTimeSync false src dst).1, []) := rfl
    rw [he2, hfirst]
  | true =>
    have he2 : oneTimeSync true src (oneTimeSync true src dst).1 =
        ((src.Manifest.foldl syncStep ((oneTimeSync true src dst).1, [])).1.Manifest.map
          Prod.fst).foldl (delStep src.Manifest)
          (src.Manifest.foldl syncStep ((oneTimeSync true src dst).1, [])) := rfl
    rw [he2, hfirst]
    have hkeep : ∀ k ∈ ((oneTimeSync true src dst).1).Manifest.map Prod.fst,
        lookupM src.Manifest k ≠ none := by
      intro k hk
      have hmem : memM ((oneTimeSync true src dst).1).Manifest k = true :=
        lookupM_isSome_of_mem_keys _ _ hk
      rw [oneTimeSync_delete_mem src dst hnd hs k] at hmem
      intro hnone
      rw [memM, hnone] at hmem
      simp at hmem
    have := pass2_noop_run (((oneTimeSync true src dst).1).Manifest.map Prod.fst)
      ((oneTimeSync true src dst).1) [] src.Manifest hkeep
    rw [this]

/-- Witness for C3 on the concrete scenario with the deletion flag on. -/
theorem oneTimeSync_rerun_s3_silent_witness :
    (oneTimeSync true srcEx (oneTimeSync true srcEx dstS3Ex).1).2 = [] :=
  oneTimeSync_rerun_s3_silent true srcEx dstS3Ex (by decide) rfl
